import Mathlib

/-!
Verification of `tardis/io/util.py` (configuration parsing, config-tree
comparison and HDF persistence utilities).

The Python code is shallowly embedded: Python floats are modelled as exact
rationals extended with signed infinities and NaN, Python exceptions as an
explicit `Except` result, the pandas/HDF store as an association list from
paths to records.  Each definition follows the corresponding source
function; line references point into `src/tardis/io/util.py`.
-/

namespace TardisIOUtil

/-- A Python float: an exact finite value (ℚ idealises the IEEE double),
a signed infinity, or NaN. -/
inductive CNum where
  | finite (q : ℚ)
  | inf (pos : Bool)
  | nan
deriving DecidableEq, Repr

/-- A parsed configuration tree as produced by `YAMLLoader`:
nested ordered mappings (`OrderedDict`), sequences (`list`), and leaf
values (floats, strings, booleans and scalar `astropy` Quantities).
A `map` node models an `OrderedDict`, whose keys are unique and listed
in insertion order; a `quantity` leaf carries its magnitude and its
unit (unit objects that print differently are distinct, e.g. "erg/s"
vs "erg"). -/
inductive Node where
  | num (x : CNum)
  | str (s : String)
  | bool (b : Bool)
  | quantity (mag : CNum) (unit : String)
  | map (entries : List (String × Node))
  | seq (items : List Node)

/-- The Python exceptions that can arise during `traverse_configs`:
`AssertionError` from `assert_equality`, `KeyError` from `other[k]` on a
mapping missing the key `k`, and `TypeError` from subscripting or
iterating a non-container (other non-`AssertionError` exceptions from
indexing are modelled as `typeError`; `check_equality` only ever
distinguishes `assertionError` from the rest). -/
inductive PyExc where
  | assertionError
  | keyError
  | typeError
deriving DecidableEq, Repr

deriving instance DecidableEq for Except

/-- numpy's default relative tolerance `rtol=1e-05`, which
`np.allclose(item1, item2, atol=0.0)` (util.py line 156) leaves in
force even though `atol` is pinned to `0`. -/
def npRtol : ℚ := 1 / 100000

/-- Absolute value on ℚ, written out so that it evaluates by kernel
reduction. -/
def ratAbs (q : ℚ) : ℚ := if q < 0 then -q else q

theorem ratAbs_eq_abs (q : ℚ) : ratAbs q = |q| := by
  unfold ratAbs
  by_cases h : q < 0
  · simp [h, abs_of_neg h]
  · simp [h, abs_of_nonneg (le_of_not_lt h)]

/-- Model of `np.isclose`/`np.allclose` on two scalar floats with `atol=0`:
both finite: `|x - y| <= rtol * |y|`; non-finite entries compare by
equality, with NaN never close to anything (`equal_nan=False`). -/
def np_isclose : CNum → CNum → Bool
  | .finite x, .finite y => decide (ratAbs (x - y) ≤ npRtol * ratAbs y)
  | .inf p, .inf q => p == q
  | _, _ => false

/-- Python `==` on two floats: NaN compares unequal to everything,
including itself. -/
def cnumPyEq : CNum → CNum → Bool
  | .finite x, .finite y => x == y
  | .inf p, .inf q => p == q
  | _, _ => false

mutual

/-- Python `==` between two tree values of the same runtime type
(the fallback `assert item1 == item2` of util.py line 158). -/
def pyEq : Node → Node → Bool
  | .num a, .num b => cnumPyEq a b
  | .str s, .str t => s == t
  | .bool a, .bool b => a == b
  | .quantity m u, .quantity n v => cnumPyEq m n && u == v
  | .map es, .map fs => pyEqEntries es fs
  | .seq xs, .seq ys => pyEqList xs ys
  | _, _ => false

/-- Python `OrderedDict == OrderedDict` is order-sensitive in Python. -/
def pyEqEntries : List (String × Node) → List (String × Node) → Bool
  | [], [] => true
  | (k, v) :: es, (l, w) :: fs => k == l && pyEq v w && pyEqEntries es fs
  | _, _ => false

/-- Python `list == list` compares elementwise. -/
def pyEqList : List Node → List Node → Bool
  | [], [] => true
  | x :: xs, y :: ys => pyEq x y && pyEqList xs ys
  | _, _ => false

end

/-- The Python runtime type of a tree value; `assert type(item1) is
type(item2)` (util.py line 152) compares these tags (`bool` and `float`
are distinct types in Python). -/
def typeTag : Node → Nat
  | .num _ => 0
  | .str _ => 1
  | .bool _ => 2
  | .quantity _ _ => 3
  | .map _ => 4
  | .seq _ => 5

/-- A Python `bool` used in arithmetic (as inside `np.allclose`) has the
numeric value 1 or 0. -/
def boolNum (b : Bool) : CNum := .finite (if b then 1 else 0)

/-- Embedding of `assert_equality(item1, item2)` (util.py lines 151-158):

    assert type(item1) is type(item2)
    try:
        if hasattr(item1, 'unit'):
            assert item1.unit == item2.unit
        assert np.allclose(item1, item2, atol=0.0)
    except (ValueError, TypeError):
        assert item1 == item2

Only `quantity` leaves have a `unit` attribute.  `np.allclose` computes
the closeness test on floats, bools and (unit-checked) Quantity
magnitudes; on strings it raises `TypeError`, which the `except` clause
converts into the plain `==` test.  The `map`/`map` and `seq`/`seq`
arms are unreachable from `check_equality` (the traversal never passes
a container as `item1`); they are modelled through the `==` fallback. -/
def assert_equality (item1 item2 : Node) : Except PyExc Unit :=
  if typeTag item1 ≠ typeTag item2 then .error .assertionError
  else
    match item1, item2 with
    | .num a, .num b =>
        if np_isclose a b then .ok () else .error .assertionError
    | .bool a, .bool b =>
        if np_isclose (boolNum a) (boolNum b) then .ok () else .error .assertionError
    | .str s, .str t =>
        if s == t then .ok () else .error .assertionError
    | .quantity m u, .quantity n v =>
        if u ≠ v then .error .assertionError
        else if np_isclose m n then .ok () else .error .assertionError
    | .map es, .map fs =>
        if pyEqEntries es fs then .ok () else .error .assertionError
    | .seq xs, .seq ys =>
        if pyEqList xs ys then .ok () else .error .assertionError
    | _, _ => .error .assertionError

/-- Python subscripting `other[k]` with a string key: a mapping yields
the stored value or raises `KeyError`; every other value raises (lists
and strings reject string indices, numbers are not subscriptable) —
modelled as `typeError`. -/
def getItem (other : Node) (k : String) : Except PyExc Node :=
  match other with
  | .map es =>
      match es.lookup k with
      | some v => .ok v
      | none => .error .keyError
  | _ => .error .typeError

/-- Python iteration as used by `zip(base, other)`: a list yields its
items, a dict yields its keys, a string yields its characters;
numbers, bools and 0-d Quantities raise `TypeError`. -/
def pyIter : Node → Option (List Node)
  | .seq items => some items
  | .map es => some (es.map fun e => Node.str e.1)
  | .str s => some (s.toList.map fun c => Node.str (String.singleton c))
  | _ => none

mutual

/-- Embedding of `traverse_configs(base, other, func)` (util.py lines 123-148):
dispatch on `base` — a `Mapping` recurses through its keys via
`other[k]`; an `Iterable` that is neither a string nor shaped (a list;
strings and scalar Quantities fall through to the leaf case) zips with
`other` and recurses pairwise; anything else is a leaf and `func` is
applied.  Exceptions short-circuit the loops exactly as in Python. -/
def traverse_configs (func : Node → Node → Except PyExc Unit) :
    Node → Node → Except PyExc Unit
  | .map es, other => traverseMap func es other
  | .seq items, other =>
      match pyIter other with
      | some os => traverseZip func items os
      | none => .error .typeError
  | base, other => func base other
termination_by structural b => b

/-- The loop `for k in base: traverse_configs(base[k], other[k], func)` — the
entries of a `map` node are its unique keys in iteration order, so
iterating the entry list is iterating the keys. -/
def traverseMap (func : Node → Node → Except PyExc Unit) :
    List (String × Node) → Node → Except PyExc Unit
  | [], _ => .ok ()
  | (k, v) :: rest, other =>
      match getItem other k with
      | .error e => .error e
      | .ok ov =>
          match traverse_configs func v ov with
          | .error e => .error e
          | .ok _ => traverseMap func rest other
termination_by structural l => l

/-- The loop `for val1, val2 in zip(base, other): traverse_configs(val1, val2,
func)` — `zip` stops at the shorter operand. -/
def traverseZip (func : Node → Node → Except PyExc Unit) :
    List Node → List Node → Except PyExc Unit
  | a :: as, b :: bs =>
      match traverse_configs func a b with
      | .error e => .error e
      | .ok _ => traverseZip func as bs
  | _, _ => .ok ()
termination_by structural l => l

end

/-- Embedding of `check_equality(item1, item2)` (util.py lines 161-167): run the
traversal with `assert_equality`; `except AssertionError: return False`,
otherwise `return True`.  Any exception other than `AssertionError`
(e.g. `KeyError`, `TypeError`) is NOT caught and propagates. -/
def check_equality (item1 item2 : Node) : Except PyExc Bool :=
  match traverse_configs assert_equality item1 item2 with
  | .ok _ => .ok true
  | .error .assertionError => .ok false
  | .error e => .error e

/-! ## The quantity parser (`quantity_from_str`, util.py lines 45-61)

Strings are modelled as `List Char` so every string operation is a plain
structural function. -/

/-- The whitespace characters recognised by Python's `str.split(None)`
and `str.strip()` (the ASCII ones; the configuration strings at hand
contain no exotic Unicode whitespace). -/
def pyIsSpace (c : Char) : Bool :=
  c = ' ' || c = '\t' || c = '\n' || c = '\r' || c = '\x0b' || c = '\x0c'

/-- Python `text.split(None, 1)` followed by unpacking into exactly two names
(`value_str, unit = ...`, util.py line 56): leading whitespace is
discarded, the first token runs to the next whitespace, the separator
run is skipped, and the remainder is returned verbatim (trailing
whitespace kept).  If fewer than two parts exist the unpacking raises
`ValueError`, modelled as `none`. -/
def pySplitNone1 (text : List Char) : Option (List Char × List Char) :=
  let s1 := text.dropWhile pyIsSpace
  let tok := s1.takeWhile fun c => !pyIsSpace c
  let rest := (s1.dropWhile fun c => !pyIsSpace c).dropWhile pyIsSpace
  if tok = [] ∨ rest = [] then none else some (tok, rest)

/-- Python `str.strip()`: remove leading and trailing whitespace. -/
def pyStrip (s : List Char) : List Char :=
  ((s.dropWhile pyIsSpace).reverse.dropWhile pyIsSpace).reverse

/-- The numeric value of a digit run, most significant first. -/
def decDigits (l : List Char) : ℕ :=
  l.foldl (fun a c => 10 * a + (c.toNat - '0'.toNat)) 0

/-- The exponent suffix of a Python float literal, after the `e`/`E`:
an optional sign followed by at least one digit, consuming the whole
rest of the string. -/
def parseExpTail (s : List Char) : Option ℤ :=
  let p : Bool × List Char :=
    match s with
    | '+' :: r => (false, r)
    | '-' :: r => (true, r)
    | r => (false, r)
  if p.2 ≠ [] ∧ p.2.all Char.isDigit then
    some (if p.1 then -(decDigits p.2 : ℤ) else (decDigits p.2 : ℤ))
  else none

/-- The unsigned decimal part of a Python float literal: digits with an
optional fractional part (at least one digit overall) and an optional
`e`/`E` exponent; nothing may remain afterwards. -/
def parseDecimal (s : List Char) : Option ℚ :=
  let ip := s.takeWhile Char.isDigit
  let s1 := s.dropWhile Char.isDigit
  let fs : List Char × List Char :=
    match s1 with
    | '.' :: r => (r.takeWhile Char.isDigit, r.dropWhile Char.isDigit)
    | _ => ([], s1)
  if ip = [] ∧ fs.1 = [] then none
  else
    let mant : ℚ := (decDigits ip : ℚ) + (decDigits fs.1 : ℚ) / (10 : ℚ) ^ fs.1.length
    match fs.2 with
    | [] => some mant
    | c :: r =>
        if c = 'e' ∨ c = 'E' then (parseExpTail r).map fun e => mant * (10 : ℚ) ^ e
        else none

/-- Python's `float(value_str)` (util.py line 57): strip whitespace,
take an optional sign, then either `inf`/`infinity`/`nan`
(case-insensitive) or a decimal literal; the value is the exact
rational the literal denotes (ℚ idealises the rounded IEEE double).
Failure (`ValueError`) is `none`. -/
def pyFloat (s : List Char) : Option CNum :=
  let t := pyStrip s
  let p : Bool × List Char :=
    match t with
    | '+' :: r => (false, r)
    | '-' :: r => (true, r)
    | r => (false, r)
  let low := p.2.map Char.toLower
  if low = "inf".toList ∨ low = "infinity".toList then some (.inf (!p.1))
  else if low = "nan".toList then some .nan
  else (parseDecimal p.2).map fun q => .finite (if p.1 then -q else q)

/-- The magnitude of a parsed Quantity, as a real number (or a signed
infinity or NaN). -/
inductive RMag where
  | finite (x : ℝ)
  | inf (pos : Bool)
  | nan

/-- A Python float viewed as a Quantity magnitude. -/
def CNum.toRMag : CNum → RMag
  | .finite q => .finite (q : ℝ)
  | .inf p => .inf p
  | .nan => .nan

/-- The constant `astropy.constants.L_sun.cgs.value`: the solar luminosity in erg/s. -/
noncomputable def L_sun_cgs : ℝ := 3.828e33

/-- The map `10 ** (value + np.log10(constants.L_sun.cgs.value))` (util.py
line 59) on a Python float; IEEE semantics sends `-inf` to `0.0`,
`inf` to `inf` and NaN to NaN. -/
noncomputable def logLsunMag : CNum → RMag
  | .finite q => .finite ((10 : ℝ) ^ ((q : ℝ) + Real.logb 10 L_sun_cgs))
  | .inf true => .inf true
  | .inf false => .finite 0
  | .nan => .nan

/-- An `astropy.units.Quantity` as returned by the parser: a magnitude
and a unit.  The unit is carried as the string handed to
`u.Quantity(value, unit)`; resolving it against the unit system is the
external astropy collaborator. -/
structure PyQuantity where
  mag : RMag
  unit : List Char

/-- Embedding of `quantity_from_str(text)` (util.py lines 45-61):

    value_str, unit = text.split(None, 1)
    value = float(value_str)
    if unit.strip() == 'log_lsun':
        value = 10 ** (value + np.log10(constants.L_sun.cgs.value))
        unit = 'erg/s'
    return u.Quantity(value, unit)

`none` models the `ValueError` raised either by unpacking a split with
fewer than two parts or by `float` on a malformed literal. -/
noncomputable def quantity_from_str (text : List Char) : Option PyQuantity :=
  match pySplitNone1 text with
  | none => none
  | some (value_str, unit) =>
      match pyFloat value_str with
      | none => none
      | some value =>
          if pyStrip unit = "log_lsun".toList then
            some ⟨logLsunMag value, "erg/s".toList⟩
          else some ⟨value.toRMag, unit⟩

/-! ## The order-preserving mapping constructor (util.py lines 90-99) -/

/-- Insertion into an association list with dict update semantics: an
existing key keeps its position and receives the new value, a new key
is appended at the end. -/
def alistSet {α : Type} : List (String × α) → String → α → List (String × α)
  | [], k, v => [(k, v)]
  | e :: rest, k, v =>
      if e.1 == k then (k, v) :: rest else e :: alistSet rest k v

/-- Python `OrderedDict(pairs)`: fold the pairs into an insertion-ordered
dictionary (first occurrence fixes the position of a key, a later
duplicate only updates the value). -/
def orderedDictOfPairs {α : Type} (pairs : List (String × α)) :
    List (String × α) :=
  pairs.foldl (fun acc p => alistSet acc p.1 p.2) []

/-- Embedding of `YAMLLoader.mapping_constructor(node)` (util.py lines 90-91):
`OrderedDict(self.construct_pairs(node))`.  `construct_pairs` (the host
YAML library) yields the mapping node's key/value pairs in document
declaration order; the registration on lines 98-99 makes this the
constructor for every mapping node. -/
def mapping_constructor (pairs : List (String × Node)) : List (String × Node) :=
  orderedDictOfPairs pairs

/-! ## The heterogeneous store writer (`to_hdf`, util.py lines 170-224)

The HDF store is an association list from logical paths to records;
writing to an existing path replaces the record there. -/

/-- A pandas index label: `pd.Series(array)` indexes by integer
position, `pd.Series(dict)` by the string names. -/
inductive PdIdx where
  | int (n : ℕ)
  | str (s : String)
deriving DecidableEq, Repr

/-- A record stored at one path of the HDF store: a pandas `Series`
(list of index/value rows), a numeric `DataFrame`, or the single-row
`pd.DataFrame([value])` wrapper around a shapeless non-scalar value
(whose payload is opaque to this module). -/
inductive Record where
  | series (entries : List (PdIdx × ℚ))
  | frame (rows : List (List ℚ))
  | objFrame (tag : ℕ)
deriving DecidableEq, Repr

/-- A value of `elements`, after the unit strip of util.py lines
197-198 (`if hasattr(value, 'cgs'): value = value.cgs.value`, which
happens before classification, so a value is represented by its
post-conversion CGS payload):
`scalar` — `np.isscalar(value)` is true (numeric payloads suffice for
the claims);
`arr1` — shaped with `ndim == 1` and a plain index;
`arr1mi` — shaped with `ndim == 1` but `pd.Series(value).to_hdf`
raises `NotImplementedError` (the `model.plasma.levels` MultiIndex
case), triggering the DataFrame fallback of lines 203-209;
`arr2` — shaped with `ndim != 1`;
`other` — neither scalar nor shaped. -/
inductive HVal where
  | scalar (x : ℚ)
  | arr1 (xs : List ℚ)
  | arr1mi (xs : List ℚ)
  | arr2 (rows : List (List ℚ))
  | other (tag : ℕ)

/-- Python `os.path.join(path, key)` for the plain relative names used here. -/
def pathJoin (p k : String) : String := p ++ "/" ++ k

/-- Building `pd.Series(value)` for a 1-D array: integer-position index. -/
def seriesOfArr (xs : List ℚ) : Record :=
  .series (xs.enum.map fun p => (PdIdx.int p.1, p.2))

/-- Building `pd.DataFrame(value)` for a 1-D array: a single-column frame. -/
def frameOfArr1 (xs : List ℚ) : Record :=
  .frame (xs.map fun x => [x])

/-- The element loop of `to_hdf` (util.py lines 195-214): walk
`elements` in iteration order, buffering scalars into the `scalars`
dict and writing every non-scalar value immediately at `path/key`;
returns the updated store and the scalar buffer. -/
def writeElements (path : String) :
    List (String × HVal) → List (String × Record) × List (String × ℚ) →
    List (String × Record) × List (String × ℚ)
  | [], acc => acc
  | (key, v) :: rest, (st, buf) =>
      match v with
      | .scalar x => writeElements path rest (st, buf ++ [(key, x)])
      | .arr1 xs =>
          writeElements path rest (alistSet st (pathJoin path key) (seriesOfArr xs), buf)
      | .arr1mi xs =>
          writeElements path rest (alistSet st (pathJoin path key) (frameOfArr1 xs), buf)
      | .arr2 rows =>
          writeElements path rest (alistSet st (pathJoin path key) (.frame rows), buf)
      | .other t =>
          writeElements path rest (alistSet st (pathJoin path key) (.objFrame t), buf)

/-- Insertion step of a lexicographic insertion sort on names. -/
def insertByKey (p : String × ℚ) : List (String × ℚ) → List (String × ℚ)
  | [] => [p]
  | q :: rest => if p.1 ≤ q.1 then p :: q :: rest else q :: insertByKey p rest

/-- Lexicographic sort by name. -/
def sortByKey : List (String × ℚ) → List (String × ℚ)
  | [] => []
  | p :: rest => insertByKey p (sortByKey rest)

/-- Building `pd.Series(scalars)` for the scalar dict (util.py line 217): the
index is the scalar names; a plain Python dict carries no usable order
and the era's pandas returns the entries sorted by key. -/
def seriesOfDict (buf : List (String × ℚ)) : List (PdIdx × ℚ) :=
  (sortByKey buf).map fun p => (PdIdx.str p.1, p.2)

/-- Embedding of `store[scalars_path].append(scalars_series)` (util.py line 223):
pandas `Series.append` concatenates, keeping duplicate index labels.
(A non-`series` record at the scalars path cannot arise from this
module's own scalar writes; that arm is outside the claims and left as
the stored record.) -/
def pdAppend (r : Record) (new : List (PdIdx × ℚ)) : Record :=
  match r with
  | .series old => .series (old ++ new)
  | r => r

/-- The result of a `to_hdf` call: the final store, and whether the
`pd.HDFStore(...)` context of lines 221-223 (the scalars-append step)
was entered at all. -/
structure WriteResult where
  store : List (String × Record)
  openedScalarsStore : Bool
deriving DecidableEq, Repr

/-- Embedding of `to_hdf(path_or_buf, path, elements)` (util.py lines 170-224):
run the element loop; then, only if any scalars were buffered, open
the store, append the new scalar series to an existing record at
`path/scalars`, and write the combined series back there, replacing
whatever was stored. -/
def to_hdf (store0 : List (String × Record)) (path : String)
    (elements : List (String × HVal)) : WriteResult :=
  let res := writeElements path elements (store0, [])
  if res.2.isEmpty then ⟨res.1, false⟩
  else
    let scalars_series := seriesOfDict res.2
    let scalars_path := pathJoin path "scalars"
    let combined :=
      match res.1.lookup scalars_path with
      | some r => pdAppend r scalars_series
      | none => Record.series scalars_series
    ⟨alistSet res.1 scalars_path combined, true⟩

/-! ## Predicates used in the statements -/

/-- NaN test on a Python float. -/
def cnumIsNaN : CNum → Bool
  | .nan => true
  | _ => false

mutual

/-- Every mapping node of the tree has pairwise-distinct keys — always
true of trees built from Python dicts, which cannot hold a key twice. -/
def uniqueKeys : Node → Bool
  | .map es => entriesUniqueKeys es
  | .seq xs => itemsUniqueKeys xs
  | _ => true

/-- Entry-list form of `uniqueKeys`. -/
def entriesUniqueKeys : List (String × Node) → Bool
  | [] => true
  | (k, v) :: rest =>
      rest.all (fun e => e.1 != k) && uniqueKeys v && entriesUniqueKeys rest

/-- Item-list form of `uniqueKeys`. -/
def itemsUniqueKeys : List Node → Bool
  | [] => true
  | x :: xs => uniqueKeys x && itemsUniqueKeys xs

end

mutual

/-- Some leaf of the tree is a NaN float or a Quantity of NaN
magnitude. -/
def hasNaN : Node → Bool
  | .num x => cnumIsNaN x
  | .quantity m _ => cnumIsNaN m
  | .map es => entriesHasNaN es
  | .seq xs => itemsHasNaN xs
  | _ => false

/-- Entry-list form of `hasNaN`. -/
def entriesHasNaN : List (String × Node) → Bool
  | [] => false
  | (_, v) :: rest => hasNaN v || entriesHasNaN rest

/-- Item-list form of `hasNaN`. -/
def itemsHasNaN : List Node → Bool
  | [] => false
  | x :: xs => hasNaN x || itemsHasNaN xs

end

/-! ## Basic facts about the traversal -/

theorem traverse_configs_num (func : Node → Node → Except PyExc Unit)
    (x : CNum) (other : Node) :
    traverse_configs func (.num x) other = func (.num x) other := rfl

theorem traverse_configs_quantity (func : Node → Node → Except PyExc Unit)
    (m : CNum) (u : String) (other : Node) :
    traverse_configs func (.quantity m u) other = func (.quantity m u) other := rfl

theorem traverse_configs_seq_seq (func : Node → Node → Except PyExc Unit)
    (xs ys : List Node) :
    traverse_configs func (.seq xs) (.seq ys) = traverseZip func xs ys := rfl

theorem traverse_configs_map (func : Node → Node → Except PyExc Unit)
    (es : List (String × Node)) (other : Node) :
    traverse_configs func (.map es) other = traverseMap func es other := rfl

theorem traverseZip_take (func : Node → Node → Except PyExc Unit) :
    ∀ xs ys : List Node,
      traverseZip func xs ys
        = traverseZip func (xs.take ys.length) (ys.take xs.length) := by
  intro xs
  induction xs with
  | nil => intro ys; cases ys <;> rfl
  | cons a as iha =>
      intro ys
      cases ys with
      | nil => rfl
      | cons b bs =>
          simp only [List.length_cons, List.take_succ_cons]
          simp only [traverseZip]
          cases traverse_configs func a b with
          | error e => rfl
          | ok u => exact iha bs

/-! ## C1 — exception behaviour of `check_equality` -/

/-- C1 (counterexample): `check_equality` does NOT convert every
comparison failure to `False`: when a key of the first tree is absent
from the second, `other[k]` raises `KeyError`, which is not an
`AssertionError` and therefore propagates to the caller instead of
becoming the boolean `false`. -/
theorem check_equality_keyError_counterexample :
    check_equality (.map [("k", .num (.finite 1))]) (.map [])
      = .error .keyError := by
  with_unfolding_all rfl

/-- C1 (amended): `check_equality` converts exactly the
`AssertionError` failures (leaf mismatch, type mismatch, unit mismatch)
to the boolean `false` — it never returns an `AssertionError` itself,
and whenever the traversal fails with `AssertionError` the result is
`False`; any other exception (`KeyError` from a key of `a` missing in
`b`, `TypeError` from a structural mismatch) propagates uncaught. -/
theorem check_equality_assertion_to_false :
    (∀ a b : Node, check_equality a b ≠ Except.error PyExc.assertionError) ∧
    (∀ a b : Node,
      traverse_configs assert_equality a b = Except.error PyExc.assertionError →
      check_equality a b = Except.ok false) := by
  constructor
  · intro a b
    unfold check_equality
    rcases traverse_configs assert_equality a b with e | u
    · cases e <;> simp
    · simp
  · intro a b h
    unfold check_equality
    rw [h]

/-- C1 (witness): a plain leaf mismatch (an `AssertionError`) is
converted to the boolean `false`. -/
theorem check_equality_assertion_to_false_witness :
    check_equality (.num (.finite 1)) (.num (.finite 2)) = Except.ok false :=
  check_equality_assertion_to_false.2 _ _ (by with_unfolding_all rfl)

/-! ## C4 — the leaf closeness test -/

/-- C4 (counterexample): the leaf comparison is NOT exact equality:
`np.allclose(..., atol=0.0)` still applies the default relative
tolerance `rtol=1e-5`, so the distinct values `100000.0` and `100001.0`
compare as equal leaves. -/
theorem check_equality_tolerance_counterexample :
    check_equality (.num (.finite 100000)) (.num (.finite 100001))
        = Except.ok true ∧
      (100000 : ℚ) ≠ (100001 : ℚ) := by
  constructor
  · with_unfolding_all rfl
  · norm_num

/-- C4 (amended): for two plain finite numbers the leaf test of the
comparator uses absolute tolerance `0` but numpy's default relative
tolerance `1e-5`: the leaves compare as equal if and only if
`|x - y| <= |y| / 100000` (exact equality only in the limit). -/
theorem check_equality_finite_leaves_iff (x y : ℚ) :
    check_equality (.num (.finite x)) (.num (.finite y)) = Except.ok true ↔
      |x - y| ≤ |y| / 100000 := by
  have hr : npRtol * |y| = |y| / 100000 := by unfold npRtol; ring
  unfold check_equality
  rw [traverse_configs_num]
  by_cases hc : ratAbs (x - y) ≤ npRtol * ratAbs y
  · simp [assert_equality, typeTag, np_isclose, hc]
    rw [ratAbs_eq_abs, ratAbs_eq_abs, hr] at hc
    exact hc
  · simp [assert_equality, typeTag, np_isclose, hc]
    rw [ratAbs_eq_abs, ratAbs_eq_abs, hr] at hc
    exact not_le.mp hc

/-! ## C7 — missing whitespace separator -/

/-- C7: an input with no whitespace separator splits into fewer than
two parts, so the unpacking `value_str, unit = text.split(None, 1)`
fails (`ValueError`, the spec's FormatError): the parser returns no
Quantity. -/
theorem quantity_from_str_no_separator (s : List Char)
    (h : ∀ c ∈ s, pyIsSpace c = false) :
    quantity_from_str s = none := by
  have h2 : List.dropWhile (fun c => !pyIsSpace c) s = [] := by
    induction s with
    | nil => rfl
    | cons c cs ih =>
        simp only [List.dropWhile_cons, h c (List.mem_cons_self c cs),
          Bool.not_false, if_pos]
        exact ih fun c hc => h c (List.mem_cons_of_mem _ hc)
  have h1 : List.dropWhile pyIsSpace s = s := by
    cases s with
    | nil => rfl
    | cons c cs => simp [List.dropWhile_cons, h c (List.mem_cons_self c cs)]
  unfold quantity_from_str pySplitNone1
  simp [h1, h2]

/-- C7 (witness): `parse("5")` fails. -/
theorem quantity_from_str_no_separator_witness :
    quantity_from_str "5".toList = none :=
  quantity_from_str_no_separator "5".toList (by decide)

/-! ## C8 — unit equality, not dimensional compatibility -/

/-- C8: two corresponding Quantity leaves with different units compare
unequal whatever their magnitudes: `assert item1.unit == item2.unit`
fails before any numeric comparison, and the resulting
`AssertionError` makes `check_equality` return `False`. -/
theorem check_equality_unit_mismatch (m1 m2 : CNum) (u1 u2 : String)
    (h : u1 ≠ u2) :
    check_equality (.quantity m1 u1) (.quantity m2 u2) = Except.ok false := by
  unfold check_equality
  rw [traverse_configs_quantity]
  simp [assert_equality, typeTag, h]

/-- C8 (witness): unit "erg/s" against unit "erg" with equal magnitudes
compares as `False`. -/
theorem check_equality_unit_mismatch_witness :
    check_equality (.quantity (.finite 5) "erg/s") (.quantity (.finite 5) "erg")
      = Except.ok false :=
  check_equality_unit_mismatch _ _ _ _ (by decide)

/-! ## C9 — unequal-length sequences -/

/-- C9: comparing two sequence nodes only compares the common prefix:
`zip` truncates both sides to the shorter length, silently ignoring the
extra elements of the longer sequence; in particular, if the common
prefix compares equal the length difference alone never causes a
failure. -/
theorem check_equality_seq_prefix :
    (∀ xs ys : List Node,
      check_equality (.seq xs) (.seq ys)
        = check_equality (.seq (xs.take ys.length)) (.seq (ys.take xs.length))) ∧
    (∀ xs ys : List Node, xs.length ≤ ys.length →
      check_equality (.seq xs) (.seq (ys.take xs.length)) = Except.ok true →
      check_equality (.seq xs) (.seq ys) = Except.ok true) := by
  have key : ∀ xs ys : List Node,
      check_equality (.seq xs) (.seq ys)
        = check_equality (.seq (xs.take ys.length)) (.seq (ys.take xs.length)) := by
    intro xs ys
    unfold check_equality
    rw [traverse_configs_seq_seq, traverse_configs_seq_seq, traverseZip_take]
  refine ⟨key, fun xs ys h hok => ?_⟩
  rw [key xs ys, List.take_of_length_le h]
  exact hok

/-- C9 (witness): `[1.0]` compares equal to `[1.0, "x"]` — the extra
element is ignored. -/
theorem check_equality_seq_prefix_witness :
    check_equality (.seq [.num (.finite 1)]) (.seq [.num (.finite 1), .str "x"])
      = Except.ok true :=
  check_equality_seq_prefix.2 [.num (.finite 1)] [.num (.finite 1), .str "x"]
    (by decide) (by with_unfolding_all rfl)

/-! ## C5 — reflexivity of the comparator -/

theorem np_isclose_self (x : CNum) (h : cnumIsNaN x = false) :
    np_isclose x x = true := by
  cases x with
  | finite q =>
      have h0 : (0 : ℚ) ≤ npRtol * |q| := by
        have hn : (0 : ℚ) ≤ npRtol := by norm_num [npRtol]
        exact mul_nonneg hn (abs_nonneg q)
      simp only [np_isclose, ratAbs_eq_abs, sub_self, abs_zero, decide_eq_true_eq]
      exact h0
  | inf p => simp [np_isclose]
  | nan => simp [cnumIsNaN] at h

theorem traverseMap_ok (func : Node → Node → Except PyExc Unit) :
    ∀ (es : List (String × Node)) (other : Node),
      (∀ p ∈ es, ∃ ov, getItem other p.1 = .ok ov ∧
        traverse_configs func p.2 ov = .ok ()) →
      traverseMap func es other = .ok () := by
  intro es
  induction es with
  | nil => intro other _; rfl
  | cons p rest ih =>
      intro other h
      obtain ⟨k, v⟩ := p
      obtain ⟨ov, h1, h2⟩ := h (k, v) (List.mem_cons_self _ _)
      have h1' : getItem other k = .ok ov := h1
      have h2' : traverse_configs func v ov = .ok () := h2
      simp only [traverseMap, h1', h2']
      exact ih other fun q hq => h q (List.mem_cons_of_mem _ hq)

theorem traverseZip_refl (func : Node → Node → Except PyExc Unit) :
    ∀ xs : List Node, (∀ x ∈ xs, traverse_configs func x x = .ok ()) →
      traverseZip func xs xs = .ok () := by
  intro xs
  induction xs with
  | nil => intro _; rfl
  | cons x rest ih =>
      intro h
      have h1 : traverse_configs func x x = .ok () := h x (List.mem_cons_self _ _)
      simp only [traverseZip, h1]
      exact ih fun q hq => h q (List.mem_cons_of_mem _ hq)

theorem lookup_self :
    ∀ es : List (String × Node), entriesUniqueKeys es = true →
      ∀ p : String × Node, p ∈ es → List.lookup p.1 es = some p.2 := by
  intro es
  induction es with
  | nil => intro _ p hp; cases hp
  | cons q rest ih =>
      intro h p hp
      obtain ⟨k0, v0⟩ := q
      simp only [entriesUniqueKeys, Bool.and_eq_true] at h
      obtain ⟨⟨hfresh, _⟩, hrest⟩ := h
      rcases List.mem_cons.mp hp with hEq | hMem
      · subst hEq
        simp [List.lookup]
      · have hne : p.1 ≠ k0 := by
          have hb := List.all_eq_true.mp hfresh p hMem
          simpa using hb
        have hb : (p.1 == k0) = false := beq_eq_false_iff_ne.mpr hne
        simp only [List.lookup, hb]
        exact ih hrest p hMem

theorem entriesUniqueKeys_mem :
    ∀ es : List (String × Node), entriesUniqueKeys es = true →
      ∀ p ∈ es, uniqueKeys p.2 = true := by
  intro es
  induction es with
  | nil => intro _ p hp; cases hp
  | cons q rest ih =>
      intro h p hp
      obtain ⟨k0, v0⟩ := q
      simp only [entriesUniqueKeys, Bool.and_eq_true] at h
      rcases List.mem_cons.mp hp with hEq | hMem
      · subst hEq; exact h.1.2
      · exact ih h.2 p hMem

theorem entriesHasNaN_mem :
    ∀ es : List (String × Node), entriesHasNaN es = false →
      ∀ p ∈ es, hasNaN p.2 = false := by
  intro es
  induction es with
  | nil => intro _ p hp; cases hp
  | cons q rest ih =>
      intro h p hp
      obtain ⟨k0, v0⟩ := q
      simp only [entriesHasNaN, Bool.or_eq_false_iff] at h
      rcases List.mem_cons.mp hp with hEq | hMem
      · subst hEq; exact h.1
      · exact ih h.2 p hMem

theorem itemsUniqueKeys_mem :
    ∀ xs : List Node, itemsUniqueKeys xs = true →
      ∀ x ∈ xs, uniqueKeys x = true := by
  intro xs
  induction xs with
  | nil => intro _ x hx; cases hx
  | cons y rest ih =>
      intro h x hx
      simp only [itemsUniqueKeys, Bool.and_eq_true] at h
      rcases List.mem_cons.mp hx with hEq | hMem
      · subst hEq; exact h.1
      · exact ih h.2 x hMem

theorem itemsHasNaN_mem :
    ∀ xs : List Node, itemsHasNaN xs = false →
      ∀ x ∈ xs, hasNaN x = false := by
  intro xs
  induction xs with
  | nil => intro _ x hx; cases hx
  | cons y rest ih =>
      intro h x hx
      simp only [itemsHasNaN, Bool.or_eq_false_iff] at h
      rcases List.mem_cons.mp hx with hEq | hMem
      · subst hEq; exact h.1
      · exact ih h.2 x hMem

theorem traverse_refl_aux :
    ∀ n : ℕ, ∀ X : Node, sizeOf X ≤ n → uniqueKeys X = true →
      hasNaN X = false →
      traverse_configs assert_equality X X = Except.ok () := by
  intro n
  induction n with
  | zero =>
      intro X hX _ _
      exact absurd hX (by cases X <;> simp)
  | succ n ih =>
      intro X hX hu hn
      cases X with
      | num x =>
          rw [traverse_configs_num]
          simp only [hasNaN] at hn
          simp [assert_equality, typeTag, np_isclose_self x hn]
      | str s =>
          have hstep : traverse_configs assert_equality (.str s) (.str s)
              = assert_equality (.str s) (.str s) := rfl
          rw [hstep]
          simp [assert_equality, typeTag]
      | bool b =>
          have hstep : traverse_configs assert_equality (.bool b) (.bool b)
              = assert_equality (.bool b) (.bool b) := rfl
          rw [hstep]
          have hb : cnumIsNaN (boolNum b) = false := by cases b <;> rfl
          simp [assert_equality, typeTag, np_isclose_self _ hb]
      | quantity m u =>
          rw [traverse_configs_quantity]
          simp only [hasNaN] at hn
          simp [assert_equality, typeTag, np_isclose_self m hn]
      | map es =>
          rw [traverse_configs_map]
          simp only [uniqueKeys] at hu
          simp only [hasNaN] at hn
          apply traverseMap_ok
          intro p hp
          refine ⟨p.2, by simp [getItem, lookup_self es hu p hp], ?_⟩
          have hsz : sizeOf p.2 ≤ n := by
            have h1 := List.sizeOf_lt_of_mem hp
            simp only [Node.map.sizeOf_spec] at hX
            obtain ⟨k, v⟩ := p
            simp only [Prod.mk.sizeOf_spec] at h1
            show sizeOf v ≤ n
            omega
          exact ih p.2 hsz (entriesUniqueKeys_mem es hu p hp)
            (entriesHasNaN_mem es hn p hp)
      | seq xs =>
          rw [traverse_configs_seq_seq]
          simp only [uniqueKeys] at hu
          simp only [hasNaN] at hn
          apply traverseZip_refl
          intro x hx
          have hsz : sizeOf x ≤ n := by
            have h1 := List.sizeOf_lt_of_mem hx
            simp only [Node.seq.sizeOf_spec] at hX
            omega
          exact ih x hsz (itemsUniqueKeys_mem xs hu x hx)
            (itemsHasNaN_mem xs hn x hx)

/-- C5 (counterexample): reflexivity fails on a tree containing a NaN
leaf — a value the loader's float grammar can produce: `np.allclose`
treats NaN as not close to itself, the resulting `AssertionError` is
caught, and `equal(X, X)` returns `False`, not `True`. -/
theorem check_equality_refl_nan_counterexample :
    check_equality (.map [("a", .num .nan)]) (.map [("a", .num .nan)])
      = Except.ok false := by
  with_unfolding_all rfl

/-- C5 (amended): the comparator is reflexive on every configuration
tree whose mapping nodes have distinct keys (as Python dicts always do)
and which contains no NaN leaf (neither a bare NaN float nor a Quantity
of NaN magnitude): `equal(X, X)` is `True` for such `X`, including
trees with nested mappings, sequences and Quantities. -/
theorem check_equality_refl (X : Node) (hu : uniqueKeys X = true)
    (hn : hasNaN X = false) :
    check_equality X X = Except.ok true := by
  unfold check_equality
  rw [traverse_refl_aux (sizeOf X) X le_rfl hu hn]

/-- C5 (witness): reflexivity on a tree with nested mappings, a
sequence, string/bool/float/infinity leaves and a Quantity. -/
theorem check_equality_refl_witness :
    check_equality
      (.map [("a", .quantity (.finite 5) "erg/s"),
             ("b", .seq [.num (.finite 1), .str "x", .bool true, .num (.inf true)]),
             ("c", .map [("d", .num (.finite 2))])])
      (.map [("a", .quantity (.finite 5) "erg/s"),
             ("b", .seq [.num (.finite 1), .str "x", .bool true, .num (.inf true)]),
             ("c", .map [("d", .num (.finite 2))])]) = Except.ok true :=
  check_equality_refl _ (by with_unfolding_all rfl) (by with_unfolding_all rfl)

/-! ## C6 — order preservation of the mapping constructor -/

theorem alistSet_not_mem_append {α : Type} (k : String) (v : α) :
    ∀ acc : List (String × α), (∀ e ∈ acc, e.1 ≠ k) →
      alistSet acc k v = acc ++ [(k, v)] := by
  intro acc
  induction acc with
  | nil => intro _; rfl
  | cons e rest ih =>
      intro h
      have hb : (e.1 == k) = false :=
        beq_eq_false_iff_ne.mpr (h e (List.mem_cons_self _ _))
      simp only [alistSet, hb, Bool.false_eq_true, if_false, List.cons_append]
      rw [ih fun e he => h e (List.mem_cons_of_mem _ he)]

theorem foldl_alistSet_append {α : Type} :
    ∀ (pairs acc : List (String × α)),
      (∀ p ∈ pairs, ∀ q ∈ acc, q.1 ≠ p.1) →
      (pairs.map Prod.fst).Nodup →
      pairs.foldl (fun acc p => alistSet acc p.1 p.2) acc = acc ++ pairs := by
  intro pairs
  induction pairs with
  | nil => intro acc _ _; simp
  | cons p rest ih =>
      intro acc hdisj hnodup
      obtain ⟨k, v⟩ := p
      simp only [List.map_cons, List.nodup_cons] at hnodup
      have hstep : alistSet acc k v = acc ++ [(k, v)] := by
        apply alistSet_not_mem_append
        intro e he
        simpa using hdisj (k, v) (List.mem_cons_self _ _) e he
      simp only [List.foldl_cons]
      rw [hstep, ih (acc ++ [(k, v)]) ?_ hnodup.2]
      · simp
      · intro q hq e he
        rcases List.mem_append.mp he with he1 | he2
        · exact hdisj q (List.mem_cons_of_mem _ hq) e he1
        · have heq : e = (k, v) := by simpa using he2
          subst heq
          intro hEq
          apply hnodup.1
          have hEq2 : k = q.1 := hEq
          rw [hEq2]
          exact List.mem_map_of_mem Prod.fst hq

/-- C6: the mapping constructor builds an order-preserving key-to-value
structure: with distinct declared keys (pyyaml hands `construct_pairs`
results in declaration order) the resulting `OrderedDict` lists exactly
the declared pairs in declaration order; in particular declaring keys
`["c", "a", "b"]` yields a mapping iterating its keys in exactly that
order. -/
theorem mapping_constructor_order :
    (∀ pairs : List (String × Node), (pairs.map Prod.fst).Nodup →
      mapping_constructor pairs = pairs) ∧
    (mapping_constructor
        [("c", .num (.finite 1)), ("a", .num (.finite 2)),
          ("b", .num (.finite 3))]).map Prod.fst
      = ["c", "a", "b"] := by
  have key : ∀ pairs : List (String × Node), (pairs.map Prod.fst).Nodup →
      mapping_constructor pairs = pairs := by
    intro pairs h
    unfold mapping_constructor orderedDictOfPairs
    simpa using foldl_alistSet_append pairs [] (by intro p _ q hq; cases hq) h
  refine ⟨key, ?_⟩
  rw [key _ (by decide)]
  rfl

/-- C6 (witness): a mapping declared with keys in order `["c","a","b"]`
is preserved verbatim. -/
theorem mapping_constructor_order_witness :
    mapping_constructor
        [("c", .num (.finite 1)), ("a", .num (.finite 2)), ("b", .num (.finite 3))]
      = [("c", .num (.finite 1)), ("a", .num (.finite 2)), ("b", .num (.finite 3))] :=
  mapping_constructor_order.1 _ (by decide)

/-! ## C3 — the `log_lsun` sentinel unit -/

/-- C3: for an input splitting into a float literal and a unit part
whose trimmed text is exactly `log_lsun`, the parser returns magnitude
`10 ** (value + log10(L_sun_cgs))` with unit fixed to "erg/s"; an
ordinary unit such as in `"2.0 erg/s"` passes through unchanged. -/
theorem quantity_from_str_log_lsun :
    (∀ (text value_str unit : List Char) (v : ℚ),
        pySplitNone1 text = some (value_str, unit) →
        pyFloat value_str = some (.finite v) →
        pyStrip unit = "log_lsun".toList →
        quantity_from_str text
          = some ⟨.finite ((10 : ℝ) ^ ((v : ℝ) + Real.logb 10 L_sun_cgs)),
              "erg/s".toList⟩) ∧
    quantity_from_str "2.0 erg/s".toList
      = some ⟨.finite 2, "erg/s".toList⟩ := by
  constructor
  · intro text value_str unit v hsplit hfloat hstrip
    simp [quantity_from_str, hsplit, hfloat, hstrip, logLsunMag]
  · have h1 : pySplitNone1 ['2', '.', '0', ' ', 'e', 'r', 'g', '/', 's']
        = some (['2', '.', '0'], ['e', 'r', 'g', '/', 's']) := by decide
    have h2 : pyFloat ['2', '.', '0'] = some (.finite 2) := by
      with_unfolding_all rfl
    have h4 : pyStrip ['e', 'r', 'g', '/', 's']
        ≠ ['l', 'o', 'g', '_', 'l', 's', 'u', 'n'] := by decide
    simp [quantity_from_str, h1, h2, h4, CNum.toRMag, Rat.cast_ofNat]

/-- C3 (witness): `parse("1 log_lsun")` yields magnitude
`10 ** (1 + log10(L_sun_cgs))` and unit "erg/s". -/
theorem quantity_from_str_log_lsun_witness :
    quantity_from_str "1 log_lsun".toList
      = some ⟨.finite ((10 : ℝ) ^ ((1 : ℝ) + Real.logb 10 L_sun_cgs)),
          "erg/s".toList⟩ := by
  have h := quantity_from_str_log_lsun.1 "1 log_lsun".toList "1".toList
    "log_lsun".toList 1 (by decide) (by with_unfolding_all rfl) (by decide)
  simpa using h

/-! ## Storage lemmas for `to_hdf` -/

/-- Writing a record at a path makes it the record found at that path. -/
theorem alistSet_lookup {α : Type} :
    ∀ (st : List (String × α)) (p : String) (r : α),
      List.lookup p (alistSet st p r) = some r := by
  intro st
  induction st with
  | nil => intro p r; simp [alistSet, List.lookup]
  | cons e rest ih =>
      intro p r
      cases hk : (e.1 == p) with
      | true =>
          simp only [alistSet, hk, if_true, List.lookup, beq_self_eq_true]
      | false =>
          have hb : (p == e.1) = false := by
            have hne : e.1 ≠ p := by simpa using hk
            exact beq_eq_false_iff_ne.mpr (Ne.symm hne)
          simp only [alistSet, hk, Bool.false_eq_true, if_false, List.lookup, hb]
          exact ih p r

/-- Writing a record at one path leaves every other path unchanged. -/
theorem alistSet_lookup_other {α : Type} :
    ∀ (st : List (String × α)) (p q : String) (r : α), q ≠ p →
      List.lookup q (alistSet st p r) = List.lookup q st := by
  intro st
  induction st with
  | nil =>
      intro p q r hqp
      have hb : (q == p) = false := beq_eq_false_iff_ne.mpr hqp
      simp [alistSet, List.lookup, hb]
  | cons e rest ih =>
      intro p q r hqp
      cases hk : (e.1 == p) with
      | true =>
          have hep : e.1 = p := by simpa using hk
          have hb : (q == p) = false := beq_eq_false_iff_ne.mpr hqp
          have hb2 : (q == e.1) = false := by rw [hep]; exact hb
          simp only [alistSet, hk, if_true, List.lookup, hb, hb2]
      | false =>
          simp only [alistSet, hk, Bool.false_eq_true, if_false, List.lookup]
          cases hqe : (q == e.1) with
          | true => rfl
          | false => exact ih p q r hqp

/-- Joining distinct names under the same directory yields distinct
paths. -/
theorem pathJoin_right_inj (p k1 k2 : String) (h : pathJoin p k1 = pathJoin p k2) :
    k1 = k2 := by
  unfold pathJoin at h
  have hd : (p ++ "/" ++ k1).data = (p ++ "/" ++ k2).data := congrArg String.data h
  simp only [String.data_append, List.append_assoc] at hd
  have htail := List.append_cancel_left hd
  have htail2 := List.append_cancel_left htail
  cases k1
  cases k2
  exact congrArg String.mk htail2

/-- The element loop never touches a path outside `path/<its keys>`. -/
theorem writeElements_lookup_other (path target : String) :
    ∀ (elements : List (String × HVal)) (st : List (String × Record))
      (buf : List (String × ℚ)),
      (∀ p ∈ elements, pathJoin path p.1 ≠ target) →
      List.lookup target (writeElements path elements (st, buf)).1
        = List.lookup target st := by
  intro elements
  induction elements with
  | nil => intro st buf _; rfl
  | cons e rest ih =>
      intro st buf h
      obtain ⟨key, v⟩ := e
      have hk : target ≠ pathJoin path key :=
        Ne.symm (h (key, v) (List.mem_cons_self _ _))
      have hrest : ∀ p ∈ rest, pathJoin path p.1 ≠ target := fun p hp =>
        h p (List.mem_cons_of_mem _ hp)
      cases v with
      | scalar x =>
          simp only [writeElements]
          exact ih _ _ hrest
      | arr1 xs =>
          simp only [writeElements]
          rw [ih _ _ hrest]
          exact alistSet_lookup_other st _ target _ hk
      | arr1mi xs =>
          simp only [writeElements]
          rw [ih _ _ hrest]
          exact alistSet_lookup_other st _ target _ hk
      | arr2 rows =>
          simp only [writeElements]
          rw [ih _ _ hrest]
          exact alistSet_lookup_other st _ target _ hk
      | other t =>
          simp only [writeElements]
          rw [ih _ _ hrest]
          exact alistSet_lookup_other st _ target _ hk

/-! ## C2 — append semantics of the scalar record -/

/-- C2: when the element loop buffered at least one scalar and a scalar
record (a pandas Series) sits at `path/scalars` when the append step
runs, the record written back at `path/scalars` is that old record with
the new scalar series appended after it — new values follow the old,
duplicate names are kept as separate rows — and it replaces whatever
the store held at `path/scalars`. -/
theorem to_hdf_appends_scalars (store0 : List (String × Record)) (path : String)
    (elements : List (String × HVal)) (old : List (PdIdx × ℚ))
    (hbuf : (writeElements path elements (store0, [])).2 ≠ [])
    (hold : List.lookup (pathJoin path "scalars")
        (writeElements path elements (store0, [])).1 = some (.series old)) :
    List.lookup (pathJoin path "scalars") (to_hdf store0 path elements).store
      = some (.series
          (old ++ seriesOfDict (writeElements path elements (store0, [])).2)) := by
  unfold to_hdf
  have hne : (writeElements path elements (store0, [])).2.isEmpty = false := by
    simpa [List.isEmpty_iff] using hbuf
  simp only [hne, Bool.false_eq_true, if_false]
  rw [hold]
  simp only [pdAppend]
  exact alistSet_lookup _ _ _

/-- C2 (witness): writing the scalar `a = 6` on top of an existing
scalar record `{a: 5}` yields the two-row record `{a: 5, a: 6}` — the
new row follows the old one and the duplicate name "a" is not
deduplicated. -/
theorem to_hdf_appends_scalars_witness :
    List.lookup (pathJoin "p" "scalars")
        (to_hdf [(pathJoin "p" "scalars", Record.series [(PdIdx.str "a", 5)])] "p"
          [("a", HVal.scalar 6)]).store
      = some (Record.series [(PdIdx.str "a", 5), (PdIdx.str "a", 6)]) := by
  have h := to_hdf_appends_scalars
    [(pathJoin "p" "scalars", Record.series [(PdIdx.str "a", 5)])] "p"
    [("a", HVal.scalar 6)] [(PdIdx.str "a", 5)]
    (by
      rw [show (writeElements "p" [("a", HVal.scalar 6)]
          ([(pathJoin "p" "scalars", Record.series [(PdIdx.str "a", 5)])], [])).2
          = [("a", (6 : ℚ))] from by with_unfolding_all rfl]
      simp)
    (by with_unfolding_all rfl)
  rw [h]
  with_unfolding_all rfl

/-! ## C10 — the frame effect of a scalar-free write -/

/-- C10 (counterexample): even with no scalar-classified element the
record at `path/scalars` is not always left unchanged: an element
literally named "scalars" (here a 1-D array) is written at
`os.path.join(path, "scalars")` by the ordinary element loop,
overwriting the pre-existing scalar record. -/
theorem to_hdf_scalars_key_counterexample :
    (writeElements "p" [("scalars", HVal.arr1 [1, 2])]
        ([(pathJoin "p" "scalars", Record.series [(PdIdx.str "a", 5)])], [])).2
      = [] ∧
    List.lookup (pathJoin "p" "scalars")
        (to_hdf [(pathJoin "p" "scalars", Record.series [(PdIdx.str "a", 5)])] "p"
          [("scalars", HVal.arr1 [1, 2])]).store
      = some (Record.series [(PdIdx.int 0, 1), (PdIdx.int 1, 2)]) ∧
    List.lookup (pathJoin "p" "scalars")
        [(pathJoin "p" "scalars", Record.series [(PdIdx.str "a", 5)])]
      = some (Record.series [(PdIdx.str "a", 5)]) ∧
    Record.series [(PdIdx.int 0, 1), (PdIdx.int 1, 2)]
      ≠ Record.series [(PdIdx.str "a", 5)] := by
  refine ⟨by with_unfolding_all rfl, by with_unfolding_all rfl,
    by with_unfolding_all rfl, ?_⟩
  simp

/-- C10 (amended): when no element's value is classified as a scalar
and no element is itself named "scalars", the scalars-append step is
skipped entirely — the `pd.HDFStore` context is never entered and the
record at `path/scalars` (if any) is left unchanged. -/
theorem to_hdf_no_scalars (store0 : List (String × Record)) (path : String)
    (elements : List (String × HVal))
    (hscal : (writeElements path elements (store0, [])).2 = [])
    (hname : ∀ p ∈ elements, p.1 ≠ "scalars") :
    (to_hdf store0 path elements).openedScalarsStore = false ∧
    List.lookup (pathJoin path "scalars") (to_hdf store0 path elements).store
      = List.lookup (pathJoin path "scalars") store0 := by
  have hempty : (writeElements path elements (store0, [])).2.isEmpty = true := by
    simp [hscal]
  have hpath : ∀ p ∈ elements, pathJoin path p.1 ≠ pathJoin path "scalars" := by
    intro p hp hEq
    exact hname p hp (pathJoin_right_inj path p.1 "scalars" hEq)
  constructor
  · unfold to_hdf
    simp only [hempty, if_true]
  · unfold to_hdf
    simp only [hempty, if_true]
    exact writeElements_lookup_other path (pathJoin path "scalars") elements
      store0 [] hpath

/-- C10 (witness): a write of one 2-D matrix element buffers no scalar,
does not open the scalars store and leaves the existing scalar record
in place. -/
theorem to_hdf_no_scalars_witness :
    (to_hdf [(pathJoin "p" "scalars", Record.series [(PdIdx.str "a", 5)])] "p"
        [("m", HVal.arr2 [[1, 2], [3, 4]])]).openedScalarsStore = false ∧
    List.lookup (pathJoin "p" "scalars")
        (to_hdf [(pathJoin "p" "scalars", Record.series [(PdIdx.str "a", 5)])] "p"
          [("m", HVal.arr2 [[1, 2], [3, 4]])]).store
      = List.lookup (pathJoin "p" "scalars")
          [(pathJoin "p" "scalars", Record.series [(PdIdx.str "a", 5)])] :=
  to_hdf_no_scalars _ "p" _ (by with_unfolding_all rfl) (by decide)

end TardisIOUtil
